import Mathlib

/-!
Verification of the Smart Rental Suggestion Engine specification against the
repository sources.

The repository ships three source files: an Express.js entry point exposing a
single HTTP route, a BullMQ worker stub, and the project README / build
document that declares the multi-factor Suggestion Engine.  The Suggestion
Engine itself (signal normalizer, scorer, explanation synthesizer, suggestion
ledger, feedback adapter) is declared by the repository but its implementation
is not present among the source files, so those components are modelled here
directly from the specification text; the Express entry point is embedded from
its source.  All numeric quantities are modelled as rationals.
-/

/-- Modelled from the spec: the fixed enumerated set of factor kinds
(demand, utilization, health, proximity, SLA risk, inventory, calendar,
carbon). -/
inductive FactorKind
  | demand
  | utilization
  | health
  | proximity
  | slaRisk
  | inventory
  | calendar
  | carbon
  deriving DecidableEq, Repr

/-- Modelled from the spec: factor enumeration order, used as the tie-break
for the Explanation Synthesizer. -/
def kidx : FactorKind → Nat
  | FactorKind.demand => 0
  | FactorKind.utilization => 1
  | FactorKind.health => 2
  | FactorKind.proximity => 3
  | FactorKind.slaRisk => 4
  | FactorKind.inventory => 5
  | FactorKind.calendar => 6
  | FactorKind.carbon => 7

/-- Modelled from the spec: `FactorValue = (factorKind, rawValue,
normalizedValue, confidence)` produced by a signal provider or defaulted when
a provider is unavailable. -/
structure FactorValue where
  factorKind : FactorKind
  rawValue : ℚ
  normalizedValue : ℚ
  confidence : ℚ
  deriving DecidableEq, Repr

/-- Modelled from the spec (Scorer, missing from the sources): contribution =
`weight(factorKind) × normalizedValue × confidence`. -/
def contribution (w : FactorKind → ℚ) (fv : FactorValue) : ℚ :=
  w fv.factorKind * fv.normalizedValue * fv.confidence

/-- Modelled from the spec (Scorer, missing from the sources):
`rawScore = Σ contributions` over the candidate factor vector. -/
def rawScore (w : FactorKind → ℚ) (vec : List FactorValue) : ℚ :=
  (vec.map (contribution w)).sum

/-- Clamp a rational into `[-B, B]`. -/
def clampQ (B x : ℚ) : ℚ := max (-B) (min B x)

/-- Modelled from the spec (Scorer, missing from the sources): the fixed
affine-then-clamp transform mapping the unbounded rawScore into `[0,100]`,
calibrated so that rawScore 0 maps to 50.  The spec leaves the slope a
configuration choice, so it is the parameter `k`. -/
def mapScore (k raw : ℚ) : ℚ := max 0 (min 100 (50 + k * raw))

/-- Sum of the absolute factor weights of a factor vector, the denominator of
the confidence weighted average. -/
def absWeightSum (w : FactorKind → ℚ) (vec : List FactorValue) : ℚ :=
  (vec.map (fun fv => |w fv.factorKind|)).sum

/-- Weighted sum of the per-factor confidences, the numerator of the
confidence weighted average. -/
def confWeightSum (w : FactorKind → ℚ) (vec : List FactorValue) : ℚ :=
  (vec.map (fun fv => |w fv.factorKind| * fv.confidence)).sum

/-- Modelled from the spec (Scorer, missing from the sources): confidence is
the average of the per-factor confidences weighted by the absolute factor
weights; with no weighted factors at all the confidence is 0. -/
def scoreConfidence (w : FactorKind → ℚ) (vec : List FactorValue) : ℚ :=
  if absWeightSum w vec = 0 then 0 else confWeightSum w vec / absWeightSum w vec

/-- Modelled from the spec (Scorer, missing from the sources): a candidate is
admitted only when its mapped score clears the per-type threshold and its
confidence is positive; a zero-confidence candidate is discarded regardless
of score. -/
def admitsCandidate (k thr : ℚ) (w : FactorKind → ℚ) (vec : List FactorValue) : Bool :=
  decide (thr ≤ mapScore k (rawScore w vec)) && decide (0 < scoreConfidence w vec)

/-- The worked example factor vector of the spec:
demand +0.8 at confidence 0.9, utilization +0.4 at confidence 0.8,
health +0.2 at confidence 0.5. -/
def exampleVector : List FactorValue :=
  [⟨FactorKind.demand, 0, 8/10, 9/10⟩,
   ⟨FactorKind.utilization, 0, 4/10, 8/10⟩,
   ⟨FactorKind.health, 0, 2/10, 5/10⟩]

/-- The worked example weights of the spec: demand 40, utilization 25,
health 15, all other factors unweighted. -/
def exampleWeights : FactorKind → ℚ
  | FactorKind.demand => 40
  | FactorKind.utilization => 25
  | FactorKind.health => 15
  | _ => 0

/-! ### Signal Normalizer, modelled from the spec -/

/-- A raw provider output: a value together with the provider's confidence. -/
structure RawSignal where
  value : ℚ
  confidence : ℚ
  deriving DecidableEq, Repr

/-- Modelled from the spec (Signal Normalizer, missing from the sources): the
neutral FactorValue emitted when a provider is unreachable or returns no
data — normalizedValue 0 and confidence 0. -/
def neutralFactor (kind : FactorKind) : FactorValue :=
  { factorKind := kind, rawValue := 0, normalizedValue := 0, confidence := 0 }

/-- Modelled from the spec (Signal Normalizer, missing from the sources):
given a raw provider output and its factor kind, map the value into `[-1,1]`
with a per-kind configured transform; an absent output yields the neutral
FactorValue instead of a failure. -/
def normalizeSignal (transform : FactorKind → ℚ → ℚ) (kind : FactorKind)
    (out : Option RawSignal) : FactorValue :=
  match out with
  | none => neutralFactor kind
  | some r =>
    { factorKind := kind, rawValue := r.value,
      normalizedValue := clampQ 1 (transform kind r.value),
      confidence := r.confidence }

/-! ### Suggestion lifecycle and feedback, modelled from the spec -/

/-- Modelled from the spec: lifecycle states of a suggestion; OPEN is
initial, the other three are terminal. -/
inductive SuggState
  | OPEN
  | ACCEPTED
  | DECLINED
  | EXPIRED
  deriving DecidableEq, Repr

/-- Modelled from the spec: the accept/decline actions of a FeedbackEvent. -/
inductive FeedbackAction
  | ACCEPT
  | DECLINE
  deriving DecidableEq, Repr

/-- Modelled from the spec: a suggestion record in the ledger, with its
idempotency key (subject, suggestionType), lifecycle state and the signed
factor contributions that produced its score. -/
structure Suggestion where
  sid : Nat
  subject : Nat
  stype : Nat
  sstate : SuggState
  contributions : List (FactorKind × ℚ)
  deriving DecidableEq, Repr

/-- Modelled from the spec: a FeedbackEvent posted by the consuming
application. -/
structure FeedbackEvent where
  suggestionId : Nat
  action : FeedbackAction
  reason : String
  actor : Nat
  timestamp : Nat
  deriving DecidableEq, Repr

/-- Modelled from the spec: feedback-loop configuration, the learning rate η
and the fixed clamping bound for weights. -/
structure FeedbackConfig where
  eta : ℚ
  bound : ℚ

/-- Error conditions of feedback processing; a terminal suggestion yields
StaleSuggestion. -/
inductive FeedbackError
  | StaleSuggestion
  | UnknownSuggestion
  deriving DecidableEq, Repr

/-- Modelled from the spec: the whole engine state — the append-derived
suggestion ledger, the current weight profile, its revision counter, and the
next fresh suggestion id. -/
structure EngineState where
  ledger : List Suggestion
  weights : FactorKind → ℚ
  revision : Nat
  nextId : Nat

/-- Does a ledger entry hold the (subject, suggestionType) idempotency key in
state OPEN? -/
def isOpenFor (subject stype : Nat) (s : Suggestion) : Bool :=
  decide (s.subject = subject) && decide (s.stype = stype) &&
    decide (s.sstate = SuggState.OPEN)

/-- Modelled from the spec (Candidate Generator dedup, missing from the
sources): generation is skipped — silently, with no error — when an OPEN
suggestion already exists for the same (subject, suggestionType) key;
otherwise a fresh OPEN suggestion is appended. -/
def generateSuggestion (st : EngineState) (subject stype : Nat)
    (contribs : List (FactorKind × ℚ)) : EngineState :=
  if st.ledger.any (isOpenFor subject stype) = true then st
  else
    { st with
      ledger := st.ledger ++ [⟨st.nextId, subject, stype, SuggState.OPEN, contribs⟩],
      nextId := st.nextId + 1 }

/-- Total absolute contribution of a decided suggestion. -/
def totalAbsContribution (cs : List (FactorKind × ℚ)) : ℚ :=
  (cs.map (fun p => |p.2|)).sum

/-- Signed contribution recorded for one factor kind. -/
def contribFor (cs : List (FactorKind × ℚ)) (f : FactorKind) : ℚ :=
  ((cs.filter (fun p => decide (p.1 = f))).map (fun p => p.2)).sum

/-- Modelled from the spec (Feedback Adapter, missing from the sources): a
factor's normalized share of the total absolute contribution, keeping the
contribution's own sign; zero when the suggestion carried no contribution. -/
def contributionShare (cs : List (FactorKind × ℚ)) (f : FactorKind) : ℚ :=
  if totalAbsContribution cs = 0 then 0
  else contribFor cs f / totalAbsContribution cs

/-- decision = +1 for ACCEPT, -1 for DECLINE. -/
def decisionSign : FeedbackAction → ℚ
  | FeedbackAction.ACCEPT => 1
  | FeedbackAction.DECLINE => -1

/-- Modelled from the spec (Feedback Adapter, missing from the sources):
`weight ← weight + η × sign(decision) × contribution_share`, clamped to the
fixed bound. -/
def nudgeWeight (cfg : FeedbackConfig) (w sgn share : ℚ) : ℚ :=
  clampQ cfg.bound (w + cfg.eta * sgn * share)

/-- The terminal state an accept/decline decision sends an OPEN suggestion
to. -/
def decidedState : FeedbackAction → SuggState
  | FeedbackAction.ACCEPT => SuggState.ACCEPTED
  | FeedbackAction.DECLINE => SuggState.DECLINED

/-- Modelled from the spec: applying a decision to an OPEN suggestion marks
it terminal, nudges every factor weight by the clamped learning step, and
bumps the weight-profile revision. -/
def applyDecision (cfg : FeedbackConfig) (st : EngineState) (s : Suggestion)
    (act : FeedbackAction) : EngineState :=
  { ledger := st.ledger.map
      (fun t => if t.sid = s.sid then { t with sstate := decidedState act } else t),
    weights := fun f =>
      nudgeWeight cfg (st.weights f) (decisionSign act)
        (contributionShare s.contributions f),
    revision := st.revision + 1,
    nextId := st.nextId }

/-- Modelled from the spec (Suggestion Ledger + Feedback Adapter, missing
from the sources): a FeedbackEvent decides the referenced OPEN suggestion;
an event referencing a terminal suggestion fails with StaleSuggestion and
changes nothing. -/
def applyFeedback (cfg : FeedbackConfig) (st : EngineState)
    (ev : FeedbackEvent) : EngineState × Option FeedbackError :=
  match st.ledger.find? (fun s => decide (s.sid = ev.suggestionId)) with
  | none => (st, some FeedbackError.UnknownSuggestion)
  | some s =>
    if s.sstate = SuggState.OPEN then (applyDecision cfg st s ev.action, none)
    else (st, some FeedbackError.StaleSuggestion)

/-- Modelled from the spec: the time-driven OPEN → EXPIRED transition. -/
def expireSuggestion (st : EngineState) (sid : Nat) : EngineState :=
  { st with
    ledger := st.ledger.map
      (fun t =>
        if t.sid = sid ∧ t.sstate = SuggState.OPEN then
          { t with sstate := SuggState.EXPIRED }
        else t) }

/-- The initial engine state: empty ledger, the configured initial weight
profile, revision 0. -/
def initState (w0 : FactorKind → ℚ) : EngineState :=
  { ledger := [], weights := w0, revision := 0, nextId := 0 }

/-- The reachable engine states: everything obtainable from the initial
state by suggestion generation, feedback processing and expiry. -/
inductive Reachable (cfg : FeedbackConfig) (w0 : FactorKind → ℚ) : EngineState → Prop
  | init : Reachable cfg w0 (initState w0)
  | gen (st : EngineState) (subject stype : Nat) (contribs : List (FactorKind × ℚ)) :
      Reachable cfg w0 st → Reachable cfg w0 (generateSuggestion st subject stype contribs)
  | fb (st : EngineState) (ev : FeedbackEvent) :
      Reachable cfg w0 st → Reachable cfg w0 (applyFeedback cfg st ev).1
  | expire (st : EngineState) (sid : Nat) :
      Reachable cfg w0 st → Reachable cfg w0 (expireSuggestion st sid)

/-- Number of OPEN suggestions carrying a given idempotency key. -/
def openCount (st : EngineState) (subject stype : Nat) : Nat :=
  (st.ledger.filter (isOpenFor subject stype)).length

/-- The relation between a factor vector and a partially defaulted copy of
it: each position is either kept or replaced by the neutral FactorValue of
the same kind. -/
def defaultedRel (a b : FactorValue) : Prop :=
  b = a ∨ b = neutralFactor a.factorKind

/-- The weight of one factor after a sequence of ACCEPT feedbacks, each
carrying the contribution list of its decided suggestion. -/
def acceptFold (cfg : FeedbackConfig) (f : FactorKind) (w : ℚ)
    (css : List (List (FactorKind × ℚ))) : ℚ :=
  css.foldl (fun acc cs => nudgeWeight cfg acc 1 (contributionShare cs f)) w

/-- The weight of one factor after a sequence of DECLINE feedbacks. -/
def declineFold (cfg : FeedbackConfig) (f : FactorKind) (w : ℚ)
    (css : List (List (FactorKind × ℚ))) : ℚ :=
  css.foldl (fun acc cs => nudgeWeight cfg acc (-1) (contributionShare cs f)) w

/-! ### Explanation Synthesizer, modelled from the spec -/

/-- Modelled from the spec (Explanation Synthesizer, missing from the
sources): the rendering order of two contributions — strictly larger
absolute magnitude first, ties broken by factor enumeration order. -/
def contribOrder (a b : FactorKind × ℚ) : Prop :=
  |b.2| < |a.2| ∨ (|a.2| = |b.2| ∧ kidx a.1 ≤ kidx b.1)

instance : DecidableRel contribOrder := fun a b => by
  unfold contribOrder
  exact inferInstance

instance : IsTotal (FactorKind × ℚ) contribOrder := by
  constructor
  intro a b
  unfold contribOrder
  rcases lt_trichotomy |a.2| |b.2| with h | h | h
  · exact Or.inr (Or.inl h)
  · rcases Nat.le_total (kidx a.1) (kidx b.1) with hk | hk
    · exact Or.inl (Or.inr ⟨h, hk⟩)
    · exact Or.inr (Or.inr ⟨h.symm, hk⟩)
  · exact Or.inl (Or.inl h)

instance : IsTrans (FactorKind × ℚ) contribOrder := by
  constructor
  intro a b c hab hbc
  unfold contribOrder at hab hbc ⊢
  rcases hab with h1 | ⟨h1, k1⟩
  · rcases hbc with h2 | ⟨h2, k2⟩
    · exact Or.inl (by linarith)
    · exact Or.inl (by linarith)
  · rcases hbc with h2 | ⟨h2, k2⟩
    · exact Or.inl (by linarith)
    · exact Or.inr ⟨h1.trans h2, le_trans k1 k2⟩

/-- Modelled from the spec: contributions ranked by descending absolute
magnitude, ties broken by factor enumeration order. -/
def sortContribs (cs : List (FactorKind × ℚ)) : List (FactorKind × ℚ) :=
  List.insertionSort contribOrder cs

/-- The default number of clauses rendered by the Explanation Synthesizer. -/
def defaultTopN : Nat := 4

/-- Display names of the factor kinds. -/
def factorName : FactorKind → String
  | FactorKind.demand => "demand"
  | FactorKind.utilization => "utilization"
  | FactorKind.health => "health"
  | FactorKind.proximity => "proximity"
  | FactorKind.slaRisk => "sla-risk"
  | FactorKind.inventory => "inventory"
  | FactorKind.calendar => "calendar"
  | FactorKind.carbon => "carbon"

/-- Modelled from the spec: one short clause naming a factor and its
directional effect. -/
def renderClause (p : FactorKind × ℚ) : String :=
  factorName p.1 ++ (if p.2 < 0 then " pushed the score down" else " pushed the score up")

/-- Clauses after the first one, each preceded by the separator. -/
def joinSep : List String → String
  | [] => ""
  | c :: rest => "; " ++ c ++ joinSep rest

/-- Concatenate the rendered clauses into one sentence. -/
def joinClauses : List String → String
  | [] => ""
  | c :: rest => c ++ joinSep rest

/-- Modelled from the spec (Explanation Synthesizer, missing from the
sources): render the top-n contributions by absolute magnitude, in
descending order, as one sentence. -/
def synthesizeExplanation (n : Nat) (cs : List (FactorKind × ℚ)) : String :=
  joinClauses (((sortContribs cs).take n).map renderClause)

/-! ### The Express entry point, embedded from its source file -/

/-- HTTP methods used by the embedded Express application. -/
inductive HttpMethod
  | GET
  | POST
  | PUT
  | PATCH
  | DELETE
  deriving DecidableEq, Repr

/-- A registered Express route: method, path, and the constant body the
handler responds with. -/
structure Route where
  method : HttpMethod
  path : String
  response : String
  deriving DecidableEq, Repr

/-- The route table of the Express application in the source: the single
registration is a GET handler on the root path. -/
def appRoutes : List Route :=
  [⟨HttpMethod.GET, "/", "Hello from the API!"⟩]

/-- The root handler of the Express application: it ignores the request and
sends a constant string. -/
def rootHandler (_requestPath : String) : String :=
  "Hello from the API!"

/-- The port computation of the source, `process.env.PORT || 3000`: an unset
or empty environment variable falls back to the numeric literal 3000,
otherwise the string value is used as-is. -/
def resolvePort (envPort : Option String) : String ⊕ Nat :=
  match envPort with
  | none => Sum.inr 3000
  | some s => if s = "" then Sum.inr 3000 else Sum.inl s

/-! ### Theorems -/

/-- C1: the Scorer computes each factor contribution as
`weight × normalizedValue × confidence`, sums them into `rawScore`, and maps
`rawScore` into `[0,100]` by an affine-then-clamp transform sending 0 to 50;
on the spec example vector and weights the rawScore is 38.3 and, for any
positive slope, the mapped score exceeds 50. -/
theorem scorer_contribution_rawScore_affine (k : ℚ) (hk : 0 < k) :
    (∀ w fv, contribution w fv = w fv.factorKind * fv.normalizedValue * fv.confidence) ∧
    (∀ w vec, rawScore w vec = (vec.map (contribution w)).sum) ∧
    (∀ raw, 0 ≤ mapScore k raw ∧ mapScore k raw ≤ 100) ∧
    mapScore k 0 = 50 ∧
    rawScore exampleWeights exampleVector = 383/10 ∧
    50 < mapScore k (rawScore exampleWeights exampleVector) := by
  have hraw : rawScore exampleWeights exampleVector = 383/10 := by
    simp [rawScore, contribution, exampleVector, exampleWeights]
    norm_num
  refine ⟨fun w fv => rfl, fun w vec => rfl, ?_, ?_, hraw, ?_⟩
  · intro raw
    constructor
    · exact le_max_left 0 _
    · have h1 : min 100 (50 + k * raw) ≤ 100 := min_le_left _ _
      have h0 : (0 : ℚ) ≤ 100 := by norm_num
      exact max_le h0 h1
  · norm_num [mapScore]
  · rw [hraw]
    unfold mapScore
    have hpos : (50 : ℚ) < 50 + k * (383/10) := by nlinarith
    have hmin : (50 : ℚ) < min 100 (50 + k * (383/10)) :=
      lt_min (by norm_num) hpos
    exact lt_of_lt_of_le hmin (le_max_right 0 _)

/-- C1 witness: the theorem applied at slope 1. -/
theorem scorer_contribution_rawScore_affine_witness :
    rawScore exampleWeights exampleVector = 383/10 ∧
    50 < mapScore 1 (rawScore exampleWeights exampleVector) :=
  ⟨(scorer_contribution_rawScore_affine 1 (by norm_num)).2.2.2.2.1,
   (scorer_contribution_rawScore_affine 1 (by norm_num)).2.2.2.2.2⟩

/-- C2: the score and confidence are pure functions of the factor vector and
the weight profile (determinism is definitional for Lean functions), and
permuting the factor vector changes neither rawScore, nor the mapped score,
nor the confidence. -/
theorem score_deterministic_perm_invariant (k : ℚ) (w : FactorKind → ℚ)
    (v₁ v₂ : List FactorValue) (hperm : v₁.Perm v₂) :
    rawScore w v₁ = rawScore w v₂ ∧
    mapScore k (rawScore w v₁) = mapScore k (rawScore w v₂) ∧
    scoreConfidence w v₁ = scoreConfidence w v₂ := by
  have hraw : rawScore w v₁ = rawScore w v₂ := by
    unfold rawScore
    exact List.Perm.sum_eq (hperm.map _)
  have habs : absWeightSum w v₁ = absWeightSum w v₂ := by
    unfold absWeightSum
    exact List.Perm.sum_eq (hperm.map _)
  have hconf : confWeightSum w v₁ = confWeightSum w v₂ := by
    unfold confWeightSum
    exact List.Perm.sum_eq (hperm.map _)
  refine ⟨hraw, by rw [hraw], ?_⟩
  unfold scoreConfidence
  rw [habs, hconf]

/-- C2 witness: permutation invariance on a concrete two-element vector. -/
theorem score_deterministic_perm_invariant_witness :
    rawScore exampleWeights
        [⟨FactorKind.demand, 0, 1, 1⟩, ⟨FactorKind.health, 0, 1, 1⟩] =
      rawScore exampleWeights
        [⟨FactorKind.health, 0, 1, 1⟩, ⟨FactorKind.demand, 0, 1, 1⟩] :=
  (score_deterministic_perm_invariant 1 exampleWeights
      [⟨FactorKind.demand, 0, 1, 1⟩, ⟨FactorKind.health, 0, 1, 1⟩]
      [⟨FactorKind.health, 0, 1, 1⟩, ⟨FactorKind.demand, 0, 1, 1⟩]
      (List.Perm.swap _ _ _)).1

/-- Mapping a list with a function that never turns a non-matching element
into a matching one cannot increase the number of matches. -/
theorem length_filter_map_le {α : Type} (p : α → Bool) (f : α → α)
    (h : ∀ a, p (f a) = true → p a = true) :
    ∀ l : List α, ((l.map f).filter p).length ≤ (l.filter p).length := by
  intro l
  induction l with
  | nil => simp
  | cons a l ih =>
    rw [List.map_cons, List.filter_cons, List.filter_cons]
    cases hfa : p (f a) with
    | true =>
      rw [h a hfa]
      simp only [if_true, List.length_cons]
      exact Nat.succ_le_succ ih
    | false =>
      cases hpa : p a with
      | true =>
        simp only [Bool.false_eq_true, if_false, if_true, List.length_cons]
        exact Nat.le_succ_of_le ih
      | false =>
        simp only [Bool.false_eq_true, if_false]
        exact ih

/-- An entry altered to a terminal state never satisfies `isOpenFor`. -/
theorem isOpenFor_false_of_terminal (subject stype : Nat) (t : Suggestion)
    (hterm : t.sstate ≠ SuggState.OPEN) :
    isOpenFor subject stype t = false := by
  unfold isOpenFor
  simp [hterm]

/-- C3: in every reachable engine state each (subject, suggestionType) key
has at most one OPEN suggestion, and a generation attempt for a key that
already has an OPEN suggestion silently leaves the state unchanged (no error
value exists in the generation path at all). -/
theorem open_suggestion_uniqueness (cfg : FeedbackConfig) (w0 : FactorKind → ℚ)
    (st : EngineState) (h : Reachable cfg w0 st) :
    (∀ subject stype, openCount st subject stype ≤ 1) ∧
    (∀ subject stype contribs, 1 ≤ openCount st subject stype →
      generateSuggestion st subject stype contribs = st) := by
  constructor
  · induction h with
    | init =>
      intro subject stype
      simp [openCount, initState]
    | gen st' subj ty contribs hst ih =>
      intro subject stype
      by_cases hany : st'.ledger.any (isOpenFor subj ty) = true
      · rw [generateSuggestion, if_pos hany]
        exact ih subject stype
      · rw [generateSuggestion, if_neg hany]
        unfold openCount
        simp only [List.filter_append, List.length_append]
        by_cases hnew :
            isOpenFor subject stype ⟨st'.nextId, subj, ty, SuggState.OPEN, contribs⟩ = true
        · have hsub : subj = subject ∧ ty = stype := by
            unfold isOpenFor at hnew
            simp at hnew
            exact ⟨hnew.1, hnew.2⟩
          rcases hsub with ⟨rfl, rfl⟩
          have hforall : ∀ a ∈ st'.ledger, ¬ (isOpenFor subj ty a = true) := by
            intro a ha hpa
            exact hany (List.any_eq_true.mpr ⟨a, ha, hpa⟩)
          have hnone : st'.ledger.filter (isOpenFor subj ty) = [] := by
            rw [List.filter_eq_nil_iff]
            exact hforall
          rw [hnone]
          simp [hnew]
        · rw [List.filter_cons_of_neg (by simpa using hnew)]
          simp only [List.filter_nil, List.length_nil, Nat.add_zero]
          exact ih subject stype
    | fb st' ev hst ih =>
      intro subject stype
      rcases hfind : st'.ledger.find? (fun s => decide (s.sid = ev.suggestionId)) with _ | s
      · have hres : applyFeedback cfg st' ev = (st', some FeedbackError.UnknownSuggestion) := by
          unfold applyFeedback
          rw [hfind]
        rw [hres]
        exact ih subject stype
      · by_cases hopen : s.sstate = SuggState.OPEN
        · have hres : (applyFeedback cfg st' ev).1 = applyDecision cfg st' s ev.action := by
            unfold applyFeedback
            rw [hfind]
            dsimp only
            rw [if_pos hopen]
          rw [hres]
          unfold openCount applyDecision
          simp only []
          refine le_trans (length_filter_map_le _ _ ?_ st'.ledger) (ih subject stype)
          intro t ht
          by_cases hsid : t.sid = s.sid
          · exfalso
            rw [if_pos hsid] at ht
            have := isOpenFor_false_of_terminal subject stype
              { t with sstate := decidedState ev.action } (by cases ev.action <;> simp [decidedState])
            rw [this] at ht
            exact Bool.false_ne_true ht
          · rw [if_neg hsid] at ht
            exact ht
        · have hres : applyFeedback cfg st' ev = (st', some FeedbackError.StaleSuggestion) := by
            unfold applyFeedback
            rw [hfind]
            dsimp only
            rw [if_neg hopen]
          rw [hres]
          exact ih subject stype
    | expire st' sid hst ih =>
      intro subject stype
      unfold openCount expireSuggestion
      simp only []
      refine le_trans (length_filter_map_le _ _ ?_ st'.ledger) (ih subject stype)
      intro t ht
      by_cases hcond : t.sid = sid ∧ t.sstate = SuggState.OPEN
      · exfalso
        rw [if_pos hcond] at ht
        have := isOpenFor_false_of_terminal subject stype
          { t with sstate := SuggState.EXPIRED } (by simp)
        rw [this] at ht
        exact Bool.false_ne_true ht
      · rw [if_neg hcond] at ht
        exact ht
  · intro subject stype contribs hge
    have hne : st.ledger.filter (isOpenFor subject stype) ≠ [] := by
      intro h0
      unfold openCount at hge
      rw [h0] at hge
      simp at hge
    obtain ⟨x, hx⟩ := List.exists_mem_of_ne_nil _ hne
    have hmem := List.mem_filter.mp hx
    have hany : st.ledger.any (isOpenFor subject stype) = true :=
      List.any_eq_true.mpr ⟨x, hmem.1, hmem.2⟩
    rw [generateSuggestion, if_pos hany]

/-- C3 witness: a state with one OPEN suggestion for key (1,2), reached from
the initial state by one generation; the open count is at most one and a
second generation for the same key changes nothing. -/
theorem open_suggestion_uniqueness_witness :
    openCount (generateSuggestion (initState exampleWeights) 1 2 []) 1 2 ≤ 1 ∧
    generateSuggestion (generateSuggestion (initState exampleWeights) 1 2 []) 1 2 [] =
      generateSuggestion (initState exampleWeights) 1 2 [] :=
  ⟨(open_suggestion_uniqueness ⟨1/10, 100⟩ exampleWeights _
      (Reachable.gen _ 1 2 [] Reachable.init)).1 1 2,
   (open_suggestion_uniqueness ⟨1/10, 100⟩ exampleWeights _
      (Reachable.gen _ 1 2 [] Reachable.init)).2 1 2 [] (by decide)⟩

/-- C4: a FeedbackEvent referencing a suggestion in a terminal state fails
with StaleSuggestion and the engine state — ledger, weight profile and
revision counter included — is left unchanged. -/
theorem stale_feedback_rejected (cfg : FeedbackConfig) (st : EngineState)
    (ev : FeedbackEvent) (s : Suggestion)
    (hfind : st.ledger.find? (fun t => decide (t.sid = ev.suggestionId)) = some s)
    (hterm : s.sstate ≠ SuggState.OPEN) :
    applyFeedback cfg st ev = (st, some FeedbackError.StaleSuggestion) ∧
    (applyFeedback cfg st ev).1.ledger = st.ledger ∧
    (applyFeedback cfg st ev).1.weights = st.weights ∧
    (applyFeedback cfg st ev).1.revision = st.revision := by
  have h1 : applyFeedback cfg st ev = (st, some FeedbackError.StaleSuggestion) := by
    unfold applyFeedback
    rw [hfind]
    dsimp only
    rw [if_neg hterm]
  exact ⟨h1, by rw [h1], by rw [h1], by rw [h1]⟩

/-- C4 witness: a second feedback event on an already DECLINED suggestion is
reported stale and leaves everything, the profile revision included,
untouched. -/
theorem stale_feedback_rejected_witness :
    applyFeedback ⟨1/10, 100⟩
        ⟨[⟨0, 1, 2, SuggState.DECLINED, []⟩], exampleWeights, 5, 1⟩
        ⟨0, FeedbackAction.ACCEPT, "", 7, 3⟩ =
      (⟨[⟨0, 1, 2, SuggState.DECLINED, []⟩], exampleWeights, 5, 1⟩,
        some FeedbackError.StaleSuggestion) :=
  (stale_feedback_rejected ⟨1/10, 100⟩
      ⟨[⟨0, 1, 2, SuggState.DECLINED, []⟩], exampleWeights, 5, 1⟩
      ⟨0, FeedbackAction.ACCEPT, "", 7, 3⟩
      ⟨0, 1, 2, SuggState.DECLINED, []⟩ (by rfl) (by decide)).1

/-- A clamped value lies within the clamping bound. -/
theorem clampQ_abs_le (B x : ℚ) (hB : 0 ≤ B) : |clampQ B x| ≤ B := by
  rw [abs_le]
  constructor
  · exact le_max_left _ _
  · exact max_le (by linarith) (min_le_left _ _)

/-- Every prefix of an ACCEPT feedback sequence keeps the weight within the
clamping bound. -/
theorem acceptFold_abs_le (cfg : FeedbackConfig) (f : FactorKind)
    (hB : 0 ≤ cfg.bound) :
    ∀ (css : List (List (FactorKind × ℚ))) (w : ℚ), |w| ≤ cfg.bound →
      |acceptFold cfg f w css| ≤ cfg.bound := by
  intro css
  induction css with
  | nil => intro w hw; exact hw
  | cons cs css ih =>
    intro w hw
    simp only [acceptFold, List.foldl_cons]
    exact ih _ (clampQ_abs_le cfg.bound _ hB)

/-- Every prefix of a DECLINE feedback sequence keeps the weight within the
clamping bound. -/
theorem declineFold_abs_le (cfg : FeedbackConfig) (f : FactorKind)
    (hB : 0 ≤ cfg.bound) :
    ∀ (css : List (List (FactorKind × ℚ))) (w : ℚ), |w| ≤ cfg.bound →
      |declineFold cfg f w css| ≤ cfg.bound := by
  intro css
  induction css with
  | nil => intro w hw; exact hw
  | cons cs css ih =>
    intro w hw
    simp only [declineFold, List.foldl_cons]
    exact ih _ (clampQ_abs_le cfg.bound _ hB)

/-- An ACCEPT nudge with nonnegative share never decreases an in-bound
weight. -/
theorem nudge_ge (cfg : FeedbackConfig) (hη : 0 ≤ cfg.eta) (v sh : ℚ)
    (hv : |v| ≤ cfg.bound) (hsh : 0 ≤ sh) : v ≤ nudgeWeight cfg v 1 sh := by
  unfold nudgeWeight clampQ
  have hvB : v ≤ cfg.bound := (abs_le.mp hv).2
  have hstep : v ≤ v + cfg.eta * 1 * sh := by nlinarith
  exact le_trans (le_min hvB hstep) (le_max_right _ _)

/-- A DECLINE nudge with nonnegative share never increases an in-bound
weight. -/
theorem nudge_le (cfg : FeedbackConfig) (hη : 0 ≤ cfg.eta) (v sh : ℚ)
    (hv : |v| ≤ cfg.bound) (hsh : 0 ≤ sh) : nudgeWeight cfg v (-1) sh ≤ v := by
  unfold nudgeWeight clampQ
  have hBv : -cfg.bound ≤ v := (abs_le.mp hv).1
  have hstep : v + cfg.eta * (-1) * sh ≤ v := by nlinarith
  exact max_le hBv (le_trans (min_le_right _ _) hstep)

/-- C5: each feedback step updates a weight to
`weight + η × sign(decision) × contribution_share` clamped to the fixed
bound; consequently every ACCEPT sequence whose suggestions carry a
nonnegative share for a factor keeps that factor's weight bounded and
monotonically non-decreasing, and DECLINE sequences keep it non-increasing. -/
theorem feedback_weight_adaptation (cfg : FeedbackConfig)
    (hη : 0 ≤ cfg.eta) (hB : 0 ≤ cfg.bound) :
    (∀ w sgn share, nudgeWeight cfg w sgn share =
      max (-cfg.bound) (min cfg.bound (w + cfg.eta * sgn * share))) ∧
    (∀ f w css cs, |w| ≤ cfg.bound →
      |acceptFold cfg f w css| ≤ cfg.bound ∧
      (0 ≤ contributionShare cs f →
        acceptFold cfg f w css ≤ acceptFold cfg f w (css ++ [cs]))) ∧
    (∀ f w css cs, |w| ≤ cfg.bound →
      |declineFold cfg f w css| ≤ cfg.bound ∧
      (0 ≤ contributionShare cs f →
        declineFold cfg f w (css ++ [cs]) ≤ declineFold cfg f w css)) := by
  refine ⟨fun w sgn share => rfl, ?_, ?_⟩
  · intro f w css cs hw
    have hbound := acceptFold_abs_le cfg f hB css w hw
    refine ⟨hbound, fun hsh => ?_⟩
    have hstep : acceptFold cfg f w (css ++ [cs]) =
        nudgeWeight cfg (acceptFold cfg f w css) 1 (contributionShare cs f) := by
      unfold acceptFold
      rw [List.foldl_append, List.foldl_cons, List.foldl_nil]
    rw [hstep]
    exact nudge_ge cfg hη _ _ hbound hsh
  · intro f w css cs hw
    have hbound := declineFold_abs_le cfg f hB css w hw
    refine ⟨hbound, fun hsh => ?_⟩
    have hstep : declineFold cfg f w (css ++ [cs]) =
        nudgeWeight cfg (declineFold cfg f w css) (-1) (contributionShare cs f) := by
      unfold declineFold
      rw [List.foldl_append, List.foldl_cons, List.foldl_nil]
    rw [hstep]
    exact nudge_le cfg hη _ _ hbound hsh

/-- C5 witness: with learning rate 1/10 and bound 100, one ACCEPT on a
suggestion contributed entirely by the demand factor does not decrease the
demand weight, which stays within the bound. -/
theorem feedback_weight_adaptation_witness :
    |acceptFold ⟨1/10, 100⟩ FactorKind.demand 0 []| ≤ (100 : ℚ) ∧
    acceptFold ⟨1/10, 100⟩ FactorKind.demand 0 [] ≤
      acceptFold ⟨1/10, 100⟩ FactorKind.demand 0 [[(FactorKind.demand, 1)]] := by
  have h := (feedback_weight_adaptation ⟨1/10, 100⟩ (by norm_num) (by norm_num)).2.1
      FactorKind.demand 0 [] [(FactorKind.demand, 1)] (by norm_num)
  have hsh : (0 : ℚ) ≤ contributionShare [(FactorKind.demand, 1)] FactorKind.demand := by
    norm_num [contributionShare, totalAbsContribution, contribFor]
  exact ⟨h.1, h.2 hsh⟩

/-- C6: an unreachable provider or one returning no data yields the neutral
FactorValue with normalizedValue 0 and confidence 0; the normalizer and the
scorer are total functions, so scoring always completes and the neutral
factor leaves the raw score of the remaining factors untouched. -/
theorem normalizer_neutral_fallback :
    (∀ transform kind, normalizeSignal transform kind none = neutralFactor kind) ∧
    (∀ kind, (neutralFactor kind).normalizedValue = 0 ∧
      (neutralFactor kind).confidence = 0) ∧
    (∀ w kind, contribution w (neutralFactor kind) = 0) ∧
    (∀ w vec transform kind,
      rawScore w (vec ++ [normalizeSignal transform kind none]) = rawScore w vec) := by
  refine ⟨fun transform kind => rfl, fun kind => ⟨rfl, rfl⟩, ?_, ?_⟩
  · intro w kind
    simp [contribution, neutralFactor]
  · intro w vec transform kind
    unfold rawScore
    rw [List.map_append, List.sum_append]
    simp [normalizeSignal, contribution, neutralFactor]

/-- C7: the Scorer's confidence is the average of the per-factor confidences
weighted by the absolute factor weights; a factor whose weight is zero does
not affect it, and a candidate all of whose factors are unavailable has
confidence 0 and is discarded whatever its score threshold. -/
theorem confidence_weighted_average (w : FactorKind → ℚ) (vec : List FactorValue)
    (k thr : ℚ) :
    scoreConfidence w vec =
      (if absWeightSum w vec = 0 then 0 else confWeightSum w vec / absWeightSum w vec) ∧
    (∀ fv : FactorValue, w fv.factorKind = 0 →
      scoreConfidence w (fv :: vec) = scoreConfidence w vec) ∧
    ((∀ fv ∈ vec, fv.confidence = 0) →
      scoreConfidence w vec = 0 ∧ admitsCandidate k thr w vec = false) := by
  refine ⟨rfl, ?_, ?_⟩
  · intro fv hzero
    unfold scoreConfidence absWeightSum confWeightSum
    simp [hzero]
  · intro hzero
    have hnum : confWeightSum w vec = 0 := by
      unfold confWeightSum
      apply List.sum_eq_zero
      intro x hx
      obtain ⟨fv, hfv, rfl⟩ := List.mem_map.mp hx
      rw [hzero fv hfv, mul_zero]
    have hconf : scoreConfidence w vec = 0 := by
      unfold scoreConfidence
      rw [hnum]
      split
      · rfl
      · exact zero_div _
    refine ⟨hconf, ?_⟩
    unfold admitsCandidate
    rw [hconf]
    simp

/-- C7 witness: with the example weights, a candidate whose only factor has
confidence 0 gets confidence 0 and is never admitted; prepending a factor of
a kind whose weight is zero (carbon) changes nothing. -/
theorem confidence_weighted_average_witness :
    scoreConfidence exampleWeights
        [⟨FactorKind.carbon, 0, 1, 1⟩, ⟨FactorKind.demand, 0, 1, 0⟩] =
      scoreConfidence exampleWeights [⟨FactorKind.demand, 0, 1, 0⟩] ∧
    scoreConfidence exampleWeights [⟨FactorKind.demand, 0, 1, 0⟩] = 0 ∧
    admitsCandidate 1 0 exampleWeights [⟨FactorKind.demand, 0, 1, 0⟩] = false := by
  have h := confidence_weighted_average exampleWeights
      [⟨FactorKind.demand, 0, 1, 0⟩] 1 0
  have h1 := h.2.1 ⟨FactorKind.carbon, 0, 1, 1⟩ (by rfl)
  have h2 := h.2.2 (by intro fv hfv; simp at hfv; rw [hfv])
  exact ⟨h1, h2.1, h2.2⟩

/-- Defaulting keeps the factor kinds, hence the confidence denominator. -/
theorem absWeightSum_of_defaulted (w : FactorKind → ℚ) :
    ∀ {l l' : List FactorValue}, List.Forall₂ defaultedRel l l' →
      absWeightSum w l' = absWeightSum w l := by
  intro l l' h
  induction h with
  | nil => rfl
  | @cons a b l₁ l₂ hab hrest ih =>
    unfold absWeightSum at ih ⊢
    rw [List.map_cons, List.map_cons, List.sum_cons, List.sum_cons, ih]
    rcases hab with rfl | rfl
    · rfl
    · rfl

/-- Defaulting can only lower the confidence numerator, provided the
original confidences are nonnegative. -/
theorem confWeightSum_of_defaulted (w : FactorKind → ℚ) :
    ∀ {l l' : List FactorValue}, List.Forall₂ defaultedRel l l' →
      (∀ fv ∈ l, 0 ≤ fv.confidence) →
      confWeightSum w l' ≤ confWeightSum w l := by
  intro l l' h
  induction h with
  | nil => intro _; exact le_refl _
  | @cons a b l₁ l₂ hab hrest ih =>
    intro hconf
    unfold confWeightSum at ih ⊢
    rw [List.map_cons, List.map_cons, List.sum_cons, List.sum_cons]
    have htail := ih (fun fv hfv => hconf fv (List.mem_cons_of_mem a hfv))
    have hhead : |w b.factorKind| * b.confidence ≤ |w a.factorKind| * a.confidence := by
      rcases hab with rfl | rfl
      · exact le_refl _
      · simp only [neutralFactor, mul_zero]
        exact mul_nonneg (abs_nonneg _) (hconf a (List.mem_cons_self a l₁))
    exact add_le_add hhead htail

/-- C8: replacing any subset of a candidate's factors by the
neutral/unavailable default never increases the confidence. -/
theorem confidence_monotone_defaulting (w : FactorKind → ℚ)
    (vec vec' : List FactorValue)
    (hconf : ∀ fv ∈ vec, 0 ≤ fv.confidence)
    (hrel : List.Forall₂ defaultedRel vec vec') :
    scoreConfidence w vec' ≤ scoreConfidence w vec := by
  have habs := absWeightSum_of_defaulted w hrel
  have hnum := confWeightSum_of_defaulted w hrel hconf
  unfold scoreConfidence
  rw [habs]
  split
  · exact le_refl 0
  · rename absWeightSum w vec ≠ 0 => hne
    have hnn : 0 ≤ absWeightSum w vec := by
      unfold absWeightSum
      apply List.sum_nonneg
      intro x hx
      obtain ⟨fv, hfv, rfl⟩ := List.mem_map.mp hx
      exact abs_nonneg _
    have hpos : 0 < absWeightSum w vec := lt_of_le_of_ne hnn (Ne.symm hne)
    exact (div_le_div_iff_of_pos_right hpos).mpr hnum

/-- C8 witness: defaulting the utilization factor of the spec example vector
does not increase the confidence. -/
theorem confidence_monotone_defaulting_witness :
    scoreConfidence exampleWeights
        [⟨FactorKind.demand, 0, 8/10, 9/10⟩,
         ⟨FactorKind.utilization, 0, 0, 0⟩,
         ⟨FactorKind.health, 0, 2/10, 5/10⟩] ≤
      scoreConfidence exampleWeights
        [⟨FactorKind.demand, 0, 8/10, 9/10⟩,
         ⟨FactorKind.utilization, 0, 4/10, 8/10⟩,
         ⟨FactorKind.health, 0, 2/10, 5/10⟩] := by
  apply confidence_monotone_defaulting
  · intro fv hfv
    simp at hfv
    rcases hfv with rfl | rfl | rfl <;> norm_num
  · exact List.Forall₂.cons (Or.inl rfl)
      (List.Forall₂.cons (Or.inr rfl)
        (List.Forall₂.cons (Or.inl rfl) List.Forall₂.nil))

/-- C9: the Explanation Synthesizer renders the contributions sorted by
descending absolute magnitude with ties broken by factor enumeration order
(the rendered list is a permutation of the input), uses the default top-N of
4, is a deterministic function of the contributions, and for a non-empty
contribution list the explanation opens with the clause of a factor of
maximal absolute contribution. -/
theorem explanation_top_factor (cs : List (FactorKind × ℚ)) (hcs : cs ≠ []) :
    (sortContribs cs).Perm cs ∧
    List.Sorted contribOrder (sortContribs cs) ∧
    defaultTopN = 4 ∧
    ∃ top rest, (sortContribs cs).head? = some top ∧ top ∈ cs ∧
      (∀ p ∈ cs, |p.2| ≤ |top.2|) ∧
      synthesizeExplanation defaultTopN cs = renderClause top ++ rest := by
  have hperm : (sortContribs cs).Perm cs := List.perm_insertionSort contribOrder cs
  have hsorted : List.Sorted contribOrder (sortContribs cs) :=
    List.sorted_insertionSort contribOrder cs
  refine ⟨hperm, hsorted, rfl, ?_⟩
  have hne : sortContribs cs ≠ [] := by
    intro h0
    rw [h0] at hperm
    exact hcs (List.Perm.eq_nil hperm.symm)
  obtain ⟨top, tail, htt⟩ := List.exists_cons_of_ne_nil hne
  refine ⟨top, joinSep ((tail.take 3).map renderClause), ?_, ?_, ?_, ?_⟩
  · rw [htt]
    rfl
  · exact hperm.subset (by rw [htt]; exact List.mem_cons_self _ _)
  · intro p hp
    have hpmem : p ∈ sortContribs cs := hperm.symm.subset hp
    rw [htt] at hpmem
    rcases List.mem_cons.mp hpmem with rfl | hpt
    · exact le_refl _
    · have hs : List.Sorted contribOrder (top :: tail) := htt ▸ hsorted
      have hrel : contribOrder top p := List.rel_of_sorted_cons hs p hpt
      rcases hrel with h | ⟨h, _⟩
      · exact le_of_lt h
      · exact le_of_eq h.symm
  · unfold synthesizeExplanation
    rw [htt, show defaultTopN = 3 + 1 from rfl, List.take_succ_cons, List.map_cons]
    rfl

/-- C9 witness: on the contribution list
[(utilization, -2), (demand, 5)] the synthesizer output starts with the
clause of the maximal-magnitude factor. -/
theorem explanation_top_factor_witness :
    (sortContribs [(FactorKind.utilization, -2), (FactorKind.demand, 5)]).Perm
        [(FactorKind.utilization, -2), (FactorKind.demand, 5)] ∧
    List.Sorted contribOrder
        (sortContribs [(FactorKind.utilization, -2), (FactorKind.demand, 5)]) ∧
    defaultTopN = 4 ∧
    ∃ top rest,
      (sortContribs [(FactorKind.utilization, -2), (FactorKind.demand, 5)]).head? =
          some top ∧
      top ∈ [(FactorKind.utilization, -2), (FactorKind.demand, 5)] ∧
      (∀ p ∈ [(FactorKind.utilization, -2), (FactorKind.demand, 5)], |p.2| ≤ |top.2|) ∧
      synthesizeExplanation defaultTopN
          [(FactorKind.utilization, -2), (FactorKind.demand, 5)] =
        renderClause top ++ rest :=
  explanation_top_factor [(FactorKind.utilization, -2), (FactorKind.demand, 5)]
    (by simp)

/-- C10: the embedded Express application registers exactly one route, a GET
handler on the root path whose response is the constant string
"Hello from the API!" (so no suggestion, feedback, or weight-profile route
exists), the handler ignores the request, and the listen port is
process.env.PORT with fallback 3000 when the variable is unset (or empty). -/
theorem api_root_route_only :
    appRoutes = [⟨HttpMethod.GET, "/", "Hello from the API!"⟩] ∧
    appRoutes.length = 1 ∧
    (∀ requestPath, rootHandler requestPath = "Hello from the API!") ∧
    resolvePort none = Sum.inr 3000 ∧
    resolvePort (some "") = Sum.inr 3000 ∧
    resolvePort (some "8080") = Sum.inl "8080" := by
  refine ⟨rfl, rfl, fun _ => rfl, rfl, rfl, ?_⟩
  simp [resolvePort]
